import Mathlib

/-!
Verification development for the checkmk DCD file connector
(`lib/check_mk/cee/dcd/plugins/connectors/fileconnector.py`).

The Python source is shallowly embedded: records and attribute dictionaries
become association lists (`List (String × α)`, first binding wins on lookup,
dictionary insertion replaces in place), Python `None`/exceptions become
`Option`, and Python string operations are modelled character-wise on
`String.data`.  Python `str.lower` is modelled by `Char.toLower` (ASCII case
mapping), which matches the source's use on ASCII field names.  Functions keep
the names of the Python functions they embed.
-/

set_option autoImplicit false
set_option synthInstance.maxSize 1024

namespace FileConnector

/-- Character-wise lowercasing, the model of Python `str.lower()`. -/
def toLowerStr (s : String) : String := ⟨s.data.map Char.toLower⟩

/-- Model of Python `str.replace(" ", "_")`: a single-character replace is a
character-wise map. -/
def replace_spaces (s : String) : String :=
  ⟨s.data.map (fun c => if c = ' ' then '_' else c)⟩

/-- Embedding of `normalize_hostname` (fileconnector.py lines 78-80):
`hostname.lower().replace(" ", "_")`. -/
def normalize_hostname (hostname : String) : String :=
  replace_spaces (toLowerStr hostname)

/-- Dictionary lookup on an association list: the model of `d[key]` /
`d.get(key)` on a Python dict. -/
def dict_get {α : Type} (d : List (String × α)) (key : String) : Option α :=
  match d with
  | [] => none
  | kv :: rest => if kv.1 = key then some kv.2 else dict_get rest key

/-- Dictionary insertion `d[key] = v`: replace the binding in place when the
key is present, append otherwise (Python dicts keep insertion order). -/
def dict_set {α : Type} (d : List (String × α)) (key : String) (v : α) :
    List (String × α) :=
  match d with
  | [] => [(key, v)]
  | kv :: rest => if kv.1 = key then (key, v) :: rest else kv :: dict_set rest key v

/-- Dictionary update `d.update(upd)`: insert the bindings of `upd` in order. -/
def dict_update {α : Type} (d upd : List (String × α)) : List (String × α) :=
  upd.foldl (fun acc kv => dict_set acc kv.1 kv.2) d

/-- List membership test for strings, the model of `x in s` on a Python set or
dict key view. -/
def str_elem (x : String) (l : List String) : Bool :=
  l.any (fun y => decide (y = x))

/-- An imported record: the field-name-to-string-value mapping read from the
file. -/
abbrev Record := List (String × String)

-- # Constants of the source module (fileconnector.py lines 70-75)

/-- Embedding of `BUILTIN_ATTRIBUTES` (a Python set; only membership is used). -/
def BUILTIN_ATTRIBUTES : List String := ["locked_by", "labels", "meta_data"]

/-- Embedding of `IP_ATTRIBUTES = {"ipv4", "ip", "ipaddress"}`.  The source
uses a Python set literal; this list records its elements.  Membership tests
are order-independent, but `get_ip_address` iterates the set, so functions
that iterate it take the iteration order as an explicit parameter. -/
def IP_ATTRIBUTES : List String := ["ipv4", "ip", "ipaddress"]

def FOLDER_PLACEHOLDER : String := "undefined"

def PATH_SEPERATOR : String := "/"

/-- Character-list prefix test, the model of `str.startswith`. -/
def str_starts_with (s pat : String) : Bool := pat.data.isPrefixOf s.data

/-- Python slicing `s[n:]` (by characters). -/
def str_drop (s : String) (n : Nat) : String := ⟨s.data.drop n⟩

/-- Embedding of `is_tag` (lines 188-195): `name.lower().startswith("tag_")`. -/
def is_tag (name : String) : Bool := str_starts_with (toLowerStr name) "tag_"

/-- Embedding of `is_attribute` (lines 150-152):
`string.lower().startswith("attr_")`. -/
def is_attribute (string : String) : Bool := str_starts_with (toLowerStr string) "attr_"

-- # Python str.split

/-- Fuel-driven worker for `split_list`; the fuel is an upper bound on the
length of the remaining character list, so the `0, cs` case is unreachable. -/
def split_list_aux (sep : List Char) : Nat → List Char → List (List Char)
  | _, [] => [[]]
  | 0, cs => [cs]
  | fuel + 1, c :: cs =>
    if !sep.isEmpty && sep.isPrefixOf (c :: cs) then
      [] :: split_list_aux sep fuel (cs.drop (sep.length - 1))
    else
      match split_list_aux sep fuel cs with
      | [] => [[c]]
      | h :: t => (c :: h) :: t

/-- Model of Python `value.split(sep)` for a non-empty separator: scan left to
right, cut at each non-overlapping occurrence of `sep`. -/
def split_list (sep cs : List Char) : List (List Char) :=
  split_list_aux sep cs.length cs

def split_str (s sep : String) : List String :=
  (split_list sep.data s.data).map (fun l => ⟨l⟩)

-- # get_ip_address (lines 155-171)

/-- Python `value.split(",")[0]` (a split result is never empty). -/
def first_comma_field (value : String) : String := (split_str value ",").headD ""

/-- Model of Python `str.strip()`: drop leading and trailing whitespace. -/
def str_strip (s : String) : String :=
  ⟨((s.data.dropWhile Char.isWhitespace).reverse.dropWhile Char.isWhitespace).reverse⟩

/-- Embedding of `get_ip_address` (lines 155-171).  The source iterates the
set `IP_ATTRIBUTES`; `set_order` is the iteration order CPython happens to
produce for that set in the current process (some enumeration of its three
elements, dependent on the process's string hash seed).  For the first field
of `set_order` present in the record, the value before the first comma is
returned, stripped; when no field is present the result is `none`. -/
def get_ip_address (set_order : List String) (host : Record) : Option String :=
  match set_order with
  | [] => none
  | field :: rest =>
    match dict_get host field with
    | some v => some (str_strip (first_comma_field v))
    | none => get_ip_address rest host

-- # get_host_label (lines 92-132) and get_host_attributes (lines 135-147)

/-- Embedding of the inner `unlabelify` (lines 100-104). -/
def unlabelify (value : String) : String :=
  if str_starts_with value "label_" then str_drop value 6 else value

/-- Embedding of the inner `unprefix` of `get_host_attributes` (lines 138-141):
`value[5:]`. -/
def unprefix_attr (value : String) : String := str_drop value 5

/-- Embedding of `get_host_attributes` (lines 135-147).  Note that the
remaining key keeps its original casing: only the (case-insensitive) `attr_`
marker is sliced off. -/
def get_host_attributes (host : Record) : Record :=
  (host.filter (fun kv =>
      is_attribute kv.1 && !(str_elem (unprefix_attr kv.1) BUILTIN_ATTRIBUTES))).map
    (fun kv => (unprefix_attr kv.1, kv.2))

/-- Pattern `":sep("` of the multi-value label syntax (line 114). -/
def SEP_MARKER : List Char := ":sep(".data

/-- Indices at which `pat` occurs in `cs`. -/
def occurrence_idxs (pat cs : List Char) : List Nat :=
  (List.range (cs.length + 1)).filter (fun i => pat.isPrefixOf (cs.drop i))

/-- Index of the last `')'` in `cs`, if any. -/
def last_close_idx (cs : List Char) : Option Nat :=
  ((List.range cs.length).filter (fun i => decide (cs.getD i ' ' = ')'))).getLast?

/-- Model of `":sep(" in key`. -/
def contains_sep_marker (key : String) : Bool :=
  !(occurrence_idxs SEP_MARKER key.data).isEmpty

/-- Model of `re.findall(r"(.*):sep\((.*)\)", key)[0]` (line 115).  Both
groups are greedy, so the first group runs to the last `":sep("` that is
still followed by a `')'`, and the second group runs from there to the last
`')'` of the string.  `none` models the `IndexError` raised via `[0]` when
the regex does not match although `":sep("` occurs in the key. -/
def split_sep_key (key : String) : Option (String × String) :=
  match last_close_idx key.data with
  | none => none
  | some j =>
    match ((occurrence_idxs SEP_MARKER key.data).filter
        (fun i => decide (i + SEP_MARKER.length ≤ j))).getLast? with
    | none => none
    | some i =>
      some (⟨key.data.take i⟩,
        ⟨(key.data.drop (i + SEP_MARKER.length)).take (j - (i + SEP_MARKER.length))⟩)

/-- Embedding of the `tmp` building loop of `get_host_label` (lines 109-121).
The result is `none` when the loop raises: the regex of a `":sep("` key does
not match (`IndexError`), or the extracted separator is empty (`str.split`
raises `ValueError` on an empty separator). -/
def build_label_tmp (hostname_field : String) :
    List (String × String) → List (String × String) → Option (List (String × String))
  | [], tmp => some tmp
  | (key, value) :: rest, tmp =>
    if key = hostname_field then build_label_tmp hostname_field rest tmp
    else if contains_sep_marker key then
      match split_sep_key key with
      | none => none
      | some (k, sep) =>
        if sep = "" then none
        else
          build_label_tmp hostname_field rest
            ((split_str value sep).foldl
              (fun t v => dict_set t (toLowerStr (k ++ "/" ++ v)) "true") tmp)
    else build_label_tmp hostname_field rest (dict_set tmp (toLowerStr key) value)

/-- Embedding of `get_host_label` (lines 92-132). -/
def get_host_label (host : Record) (hostname_field : String) :
    Option (List (String × String)) :=
  match build_label_tmp hostname_field host [] with
  | none => none
  | some tmp =>
    some ((tmp.filter (fun kv =>
        !(is_tag kv.1 || str_elem kv.1 IP_ATTRIBUTES || is_attribute kv.1 ||
          str_elem kv.1 BUILTIN_ATTRIBUTES))).map (fun kv => (unlabelify kv.1, kv.2)))

/-- Embedding of `get_host_tags` (lines 183-185), generic in the value type so
it applies both to imported records and to checkmk attribute dictionaries. -/
def get_host_tags {α : Type} (attributes : List (String × α)) : List (String × α) :=
  attributes.filter (fun kv => is_tag kv.1)

-- # Folder paths (lines 1717-1729 and 1225-1240)

/-- Embedding of `generate_path_from_labels` (lines 1717-1729).  A label that
is present with a falsy (empty) value also yields the placeholder, via
`labels.get(key) or FOLDER_PLACEHOLDER`. -/
def generate_path_from_labels (labels : List (String × String)) (keys : List String)
    (depth : Nat) : List String :=
  if labels.isEmpty then List.replicate depth FOLDER_PLACEHOLDER
  else
    keys.map (fun key =>
      match dict_get labels key with
      | some v => if v = "" then FOLDER_PLACEHOLDER else v
      | none => FOLDER_PLACEHOLDER)

/-- Embedding of the inner `get_dynamic_folder_path` (lines 1225-1236):
optionally prepend the configured folder (skipped when it is the empty
string), replace spaces in every segment, join with `/`. -/
def get_dynamic_folder_path (config_folder : String) (labels : List (String × String))
    (keys : List String) (depth : Nat) : String :=
  let path := generate_path_from_labels labels keys depth
  let path := if config_folder ≠ "" then config_folder :: path else path
  String.intercalate PATH_SEPERATOR (path.map replace_spaces)

-- # TagMatcher (lines 1668-1714) and create_hostlike_tags (lines 198-205)

/-- Embedding of the `TagMatcher` state: `_original` is the tag dictionary
(tag-group identifier to list of legal choice values). -/
structure TagMatcher where
  original : List (String × List String)
  deriving DecidableEq

/-- Embedding of `self._normalized_names = {key.lower(): key for key in tags}`
(line 1684); a later key wins when two keys collide after lowercasing. -/
def normalized_names (tags : List (String × List String)) : List (String × String) :=
  tags.foldl (fun acc kv => dict_set acc (toLowerStr kv.1) kv.1) []

/-- Embedding of `TagMatcher.get_tag` (lines 1686-1698): exact match against
the known tag-group identifiers first, case-insensitive match second, error
otherwise (the source raises `ValueError`, the spec's `UnknownTagError`). -/
def TagMatcher.get_tag (m : TagMatcher) (name : String) : Except String String :=
  if m.original.any (fun kv => decide (kv.1 = name)) then .ok name
  else
    match dict_get (normalized_names m.original) (toLowerStr name) with
    | some canonical => .ok canonical
    | none => .error "UnknownTagError"

/-- Embedding of `create_hostlike_tags` (lines 198-205): prepend `tag_` to
every tag-group identifier coming from checkmk. -/
def create_hostlike_tags (tags_from_cmk : List (String × List String)) :
    List (String × List String) :=
  tags_from_cmk.foldl (fun acc tag => dict_set acc ("tag_" ++ tag.1) tag.2) []

-- # Chunker (lines 826-908)

/-- Embedding of `Chunker.chunks` (lines 868-873): `zip_longest` over `count`
copies of one iterator yields consecutive groups of `count` elements, the
last group padded with `None` (here `none`).  `chunks(x, 0)` is
`zip_longest()` with no arguments, which yields nothing.  The worker is
fuel-driven; the fuel bounds the length of the remaining list. -/
def chunks_pad_aux {α : Type} (count : Nat) : Nat → List α → List (List (Option α))
  | _, [] => []
  | 0, _ => []
  | fuel + 1, a :: rest =>
    (((a :: rest).take count).map some ++
        List.replicate (count - (a :: rest).length) none) ::
      chunks_pad_aux count fuel ((a :: rest).drop count)

def chunks {α : Type} (iterable : List α) (count : Nat) : List (List (Option α)) :=
  if count = 0 then [] else chunks_pad_aux count iterable.length iterable

/-- Embedding of the list comprehension `[c for c in chunk if c]` inside the
chunked-call wrappers (lines 882 and 905): the `None` padding and any falsy
item are removed; `truthy` is the Python truthiness of an item. -/
def chunk_submitted {α : Type} (truthy : α → Bool) (chunk : List (Option α)) : List α :=
  chunk.filterMap (fun o =>
    match o with
    | some a => if truthy a then some a else none
    | none => none)

/-- The groups a chunked call wrapper actually submits for `items`. -/
def submitted_groups {α : Type} (truthy : α → Bool) (chunk_size : Nat)
    (items : List α) : List (List α) :=
  (chunks items chunk_size).map (chunk_submitted truthy)

/-- Observable calls of `Chunker._chunk_returning_call` against the wrapped
client: a call of the wrapped function with a submitted group, or a call of
`activate_changes`. -/
inductive ApiEvent (α : Type) where
  | addHosts (batch : List α)
  | activate
  deriving DecidableEq

/-- Trace of `Chunker._chunk_returning_call` (lines 875-897): for each chunk
the wrapped function is called on the filtered chunk, and `activate_changes`
is called afterwards exactly when the returned value is truthy
(`if single_call_return:`); `return_truthy` models that truthiness as a
function of the submitted group (the wrapped client is deterministic). -/
def chunk_returning_call_events {α : Type} (truthy : α → Bool)
    (return_truthy : List α → Bool) (chunk_size : Nat) (items : List α) :
    List (ApiEvent α) :=
  ((chunks items chunk_size).map (fun chunk =>
    let submitted := chunk_submitted truthy chunk
    ApiEvent.addHosts submitted ::
      (if return_truthy submitted then [ApiEvent.activate] else []))).flatten

-- # FileConnector._partition_hosts (lines 1104-1445)

/-- Value of a checkmk host attribute: a plain string, the nested `labels`
dictionary, or the `locked_by` ownership marker (a `GlobalIdent`, modelled as
a string; the empty string models a falsy marker). -/
inductive AttrValue where
  | str (s : String)
  | labelMap (m : List (String × String))
  | ident (g : String)
  deriving DecidableEq

/-- A remote checkmk host as returned by `get_hosts`: its folder and its
attribute dictionary. -/
structure CmkHost where
  folder : String
  attributes : List (String × AttrValue)
  deriving DecidableEq

/-- Python truthiness of `locked_by`: absent and falsy values are falsy. -/
def locked_truthy : Option AttrValue → Bool
  | none => false
  | some (.str s) => !(s = "")
  | some (.labelMap m) => !m.isEmpty
  | some (.ident g) => !(g = "")

/-- Python truthiness of an optional string (`if label_prefix:` etc.). -/
def opt_str_truthy : Option String → Bool
  | none => false
  | some s => !(s = "")

/-- Lift a string dictionary to an attribute-value dictionary, the implicit
coercion used when imported string values are compared with or written into
checkmk attribute dictionaries. -/
def str_attrs (l : List (String × String)) : List (String × AttrValue) :=
  l.map (fun kv => (kv.1, AttrValue.str kv.2))

/-- Embedding of the inner `overtake_host` (lines 1129-1133): false when no
overtake filter is configured, otherwise true iff any filter matches.  A
compiled regex's `.match` is abstracted as a `String → Bool` predicate. -/
def overtake_host (host_overtake_filters : List (String → Bool)) (hostname : String) :
    Bool :=
  if host_overtake_filters.isEmpty then false
  else host_overtake_filters.any (fun f => f hostname)

/-- Embedding of the inner `host_matches_filters` (lines 1164-1168): true when
no filter is configured, otherwise true iff any filter matches. -/
def host_matches_filters (host_filters : List (String → Bool)) (host : String) : Bool :=
  if host_filters.isEmpty then true
  else host_filters.any (fun f => f host)

/-- Embedding of the ownership loop (lines 1136-1154).  Returns
`(hosts_managed_by_plugin, hosts_to_overtake, unrelated_hosts)`: a host
locked by this connection's identity is managed; an unlocked host matching an
overtake filter is marked for takeover; everything else is unrelated. -/
def partition_ownership (global_ident : String)
    (host_overtake_filters : List (String → Bool)) :
    List (String × CmkHost) → List (String × CmkHost) × List String × List String
  | [] => ([], [], [])
  | p :: rest =>
    let res := partition_ownership global_ident host_overtake_filters rest
    let locked_by := dict_get p.2.attributes "locked_by"
    if locked_by = some (.ident global_ident) then (p :: res.1, res.2.1, res.2.2)
    else if overtake_host host_overtake_filters p.1 && !locked_truthy locked_by then
      (res.1, p.1 :: res.2.1, res.2.2)
    else (res.1, res.2.1, p.1 :: res.2.2)

/-- Embedding of the inner `needs_modification` (lines 1178-1193): some new
binding is absent from `old` or differs from it. -/
def needs_modification {α : Type} [DecidableEq α] (old new : List (String × α)) : Bool :=
  new.any (fun kv => decide (dict_get old kv.1 ≠ some kv.2))

/-- Embedding of the inner `ip_needs_modification` (lines 1206-1207). -/
def ip_needs_modification (old_ip : Option AttrValue) (new_ip : Option String) : Bool :=
  decide (old_ip ≠ new_ip.map AttrValue.str)

/-- Embedding of the inner `clean_cmk_attributes` (lines 1209-1220): drop the
built-in attributes and the tag attributes. -/
def clean_cmk_attributes (host : List (String × AttrValue)) : List (String × AttrValue) :=
  host.filter (fun kv => !(str_elem kv.1 BUILTIN_ATTRIBUTES || is_tag kv.1))

/-- Embedding of the inner `add_prefix_to_labels` (lines 1170-1176). -/
def add_prefix_to_labels (labels : List (String × String)) (pfx : Option String) :
    List (String × String) :=
  if opt_str_truthy pfx then labels.map (fun kv => ((pfx.getD "") ++ kv.1, kv.2))
  else labels

/-- Embedding of the inner `create_host_tags` (lines 1195-1204): resolve every
imported tag name through the matcher (`none` models the uncaught
`ValueError` of `get_tag` for an unknown tag; the choice-validation loop only
logs and is omitted). -/
def create_host_tags (m : TagMatcher) (host_tags : List (String × String)) :
    Option (List (String × String)) :=
  host_tags.foldlM (fun acc kv =>
    match m.get_tag kv.1 with
    | .ok canonical => some (dict_set acc canonical kv.2)
    | .error _ => none) []

/-- Value of `attributes.get("labels", {})` (line 1309).  A present `labels`
attribute of any shape other than a label dictionary would make the
subsequent dictionary operations raise, which `none` models. -/
def get_labels_attr (attributes : List (String × AttrValue)) :
    Option (List (String × String)) :=
  match dict_get attributes "labels" with
  | none => some []
  | some (.labelMap m) => some m
  | some _ => none

/-- Locals of `get_host_modification_tuple` (lines 1296-1329) computed before
`update_needed` is consulted.  `tag_pair` is `(api_tags, future_tags)` when a
tag matcher is present.  `overtake` is the rebinding
`overtake_host = hostname in hosts_to_overtake` (line 1329). -/
structure ModContext where
  hostname : String
  comparable_attributes : List (String × AttrValue)
  future_attributes : List (String × String)
  unmodified_api_label : List (String × String)
  api_label : List (String × String)
  future_label : List (String × String)
  tag_pair : Option (List (String × AttrValue) × List (String × String))
  existing_ip : Option AttrValue
  future_ip : Option String
  overtake : Bool
  deriving DecidableEq

/-- Computation of the `ModContext` locals; `none` models an exception (the
hostname field missing from the record, a label-syntax error, a non-dict
`labels` attribute, or an unknown tag). -/
def modification_context (tag_matcher : Option TagMatcher) (label_pfx : Option String)
    (hosts_to_overtake : List String) (set_order : List String)
    (existing_host : CmkHost) (cmdb_host : Record) (hostname_field : String) :
    Option ModContext :=
  match dict_get cmdb_host hostname_field with
  | none => none
  | some raw =>
    let hostname := normalize_hostname raw
    let attributes := existing_host.attributes
    let future_attributes := get_host_attributes cmdb_host
    let comparable_attributes := clean_cmk_attributes attributes
    match get_labels_attr attributes with
    | none => none
    | some api_label0 =>
      match get_host_label cmdb_host hostname_field with
      | none => none
      | some future_label0 =>
        let future_label := add_prefix_to_labels future_label0 label_pfx
        let api_label :=
          if opt_str_truthy label_pfx then
            api_label0.filter (fun kv => str_starts_with kv.1 (label_pfx.getD ""))
          else api_label0
        let tag_pair_opt : Option (Option (List (String × AttrValue) × List (String × String))) :=
          match tag_matcher with
          | some m =>
            match create_host_tags m (get_host_tags cmdb_host) with
            | none => none
            | some future_tags => some (some (get_host_tags attributes, future_tags))
          | none => some none
        match tag_pair_opt with
        | none => none
        | some tag_pair =>
          some
            { hostname := hostname
              comparable_attributes := comparable_attributes
              future_attributes := future_attributes
              unmodified_api_label := api_label0
              api_label := api_label
              future_label := future_label
              tag_pair := tag_pair
              existing_ip := dict_get attributes "ipaddress"
              future_ip := get_ip_address set_order cmdb_host
              overtake := str_elem hostname hosts_to_overtake }

/-- Embedding of the inner `update_needed` (lines 1331-1352). -/
def update_needed (update_ips : Bool) (ctx : ModContext) : Bool :=
  ctx.overtake
    || needs_modification ctx.comparable_attributes (str_attrs ctx.future_attributes)
    || needs_modification (str_attrs ctx.api_label) (str_attrs ctx.future_label)
    || (match ctx.tag_pair with
        | some pair => needs_modification pair.1 (str_attrs pair.2)
        | none => false)
    || (update_ips && ip_needs_modification ctx.existing_ip ctx.future_ip)

/-- A tuple appended to `hosts_to_modify`:
`(hostname, attributes, attributes_to_unset)`. -/
abbrev ModifyTuple := String × List (String × AttrValue) × List String

/-- Embedding of the attribute-merging block of `get_host_modification_tuple`
(lines 1354-1389), executed when `update_needed()` is true. -/
def build_modification (label_pfx : Option String) (update_ips : Bool)
    (global_ident : String) (existing_host : CmkHost) (ctx : ModContext) : ModifyTuple :=
  let api_label :=
    if opt_str_truthy label_pfx then dict_update ctx.unmodified_api_label ctx.api_label
    else ctx.api_label
  let api_label := dict_update api_label ctx.future_label
  let attributes := dict_set existing_host.attributes "labels" (.labelMap api_label)
  let step :=
    if update_ips then
      match ctx.future_ip with
      | none => (attributes, if ctx.existing_ip.isSome then ["ipaddress"] else [])
      | some ip => (dict_set attributes "ipaddress" (.str ip), ([] : List String))
    else (attributes, [])
  let attributes := step.1
  let attributes_to_unset := step.2
  let attributes :=
    match ctx.tag_pair with
    | some pair => dict_update attributes (str_attrs pair.2)
    | none => attributes
  let attributes := dict_update attributes (str_attrs ctx.future_attributes)
  let attributes :=
    if ctx.overtake then dict_set attributes "locked_by" (.ident global_ident)
    else attributes
  let attributes := attributes.filter (fun kv => decide (kv.1 ≠ "hostname"))
  (ctx.hostname, attributes, attributes_to_unset)

/-- Embedding of `get_host_modification_tuple` (lines 1296-1391).  The outer
`Option` is an exception; the inner `Option` is `none` for the falsy empty
tuple returned when no update is needed. -/
def get_host_modification_tuple (tag_matcher : Option TagMatcher)
    (label_pfx : Option String) (update_ips : Bool) (hosts_to_overtake : List String)
    (global_ident : String) (set_order : List String) (existing_host : CmkHost)
    (cmdb_host : Record) (hostname_field : String) : Option (Option ModifyTuple) :=
  match modification_context tag_matcher label_pfx hosts_to_overtake set_order
      existing_host cmdb_host hostname_field with
  | none => none
  | some ctx =>
    if update_needed update_ips ctx then
      some (some (build_modification label_pfx update_ips global_ident existing_host ctx))
    else some none

/-- A tuple appended to `hosts_to_create`: `(hostname, folder_path, attributes)`. -/
abbrev CreateTuple := String × String × List (String × AttrValue)

/-- Embedding of `get_host_creation_tuple` (lines 1246-1274); `hostname` is
the loop variable of the enclosing scope (line 1398). -/
def get_host_creation_tuple (tag_matcher : Option TagMatcher)
    (get_folder_path : List (String × String) → String) (label_pfx : Option String)
    (global_ident : String) (set_order : List String) (cmdb_host : Record)
    (hostname_field : String) (hostname : String) : Option CreateTuple :=
  match get_host_label cmdb_host hostname_field with
  | none => none
  | some labels =>
    let folder_path := get_folder_path labels
    let prefixed_labels := add_prefix_to_labels labels label_pfx
    let attributes : List (String × AttrValue) :=
      [("labels", .labelMap prefixed_labels), ("locked_by", .ident global_ident)]
    let attributes :=
      match get_ip_address set_order cmdb_host with
      | some ip => dict_set attributes "ipaddress" (.str ip)
      | none => attributes
    let attributes_opt :=
      match tag_matcher with
      | some m =>
        match create_host_tags m (get_host_tags cmdb_host) with
        | none => none
        | some tags => some (dict_update attributes (str_attrs tags))
      | none => some attributes
    match attributes_opt with
    | none => none
    | some attributes =>
      some (hostname, folder_path,
        dict_update attributes (str_attrs (get_host_attributes cmdb_host)))

/-- A tuple appended to `hosts_to_move`: `(hostname, future_folder_path)`. -/
abbrev MoveTuple := String × String

/-- Embedding of `get_host_move_tuple` (lines 1276-1294); the inner `Option`
is `none` for the falsy empty tuple returned when the folder is unchanged. -/
def get_host_move_tuple (get_folder_path : List (String × String) → String)
    (existing_host : CmkHost) (cmdb_host : Record) (hostname_field : String) :
    Option (Option MoveTuple) :=
  match dict_get cmdb_host hostname_field with
  | none => none
  | some raw =>
    let hostname := normalize_hostname raw
    match get_host_label cmdb_host hostname_field with
    | none => none
    | some future_label =>
      let future_folder_path := get_folder_path future_label
      let absolute_future_folder_path := "/" ++ future_folder_path
      if existing_host.folder ≠ absolute_future_folder_path then
        some (some (hostname, future_folder_path))
      else some none

/-- Embedding of the record loop of `_partition_hosts` (lines 1397-1431),
producing `(hosts_to_create, hosts_to_modify, hosts_to_move)` in iteration
order.  `none` models an exception raised while processing some record. -/
def reconcile_records (tag_matcher : Option TagMatcher)
    (get_folder_path : List (String × String) → String)
    (host_filters : List (String → Bool)) (label_pfx : Option String)
    (update_ips : Bool) (hosts_to_overtake unrelated_hosts : List String)
    (global_ident : String) (set_order : List String)
    (cmk_hosts : List (String × CmkHost)) (hostname_field : String) :
    List Record → Option (List CreateTuple × List ModifyTuple × List MoveTuple)
  | [] => some ([], [], [])
  | host :: rest =>
    match dict_get host hostname_field with
    | none => none
    | some raw =>
      let hostname := normalize_hostname raw
      if !host_matches_filters host_filters hostname then
        reconcile_records tag_matcher get_folder_path host_filters label_pfx update_ips
          hosts_to_overtake unrelated_hosts global_ident set_order cmk_hosts
          hostname_field rest
      else
        match dict_get cmk_hosts hostname with
        | none =>
          match get_host_creation_tuple tag_matcher get_folder_path label_pfx
              global_ident set_order host hostname_field hostname with
          | none => none
          | some creation_tuple =>
            match reconcile_records tag_matcher get_folder_path host_filters label_pfx
                update_ips hosts_to_overtake unrelated_hosts global_ident set_order
                cmk_hosts hostname_field rest with
            | none => none
            | some res => some (creation_tuple :: res.1, res.2.1, res.2.2)
        | some existing_host =>
          if str_elem hostname unrelated_hosts then
            reconcile_records tag_matcher get_folder_path host_filters label_pfx
              update_ips hosts_to_overtake unrelated_hosts global_ident set_order
              cmk_hosts hostname_field rest
          else
            match get_host_modification_tuple tag_matcher label_pfx update_ips
                hosts_to_overtake global_ident set_order existing_host host
                hostname_field with
            | none => none
            | some host_modifications =>
              match get_host_move_tuple get_folder_path existing_host host
                  hostname_field with
              | none => none
              | some host_move =>
                match reconcile_records tag_matcher get_folder_path host_filters
                    label_pfx update_ips hosts_to_overtake unrelated_hosts global_ident
                    set_order cmk_hosts hostname_field rest with
                | none => none
                | some res =>
                  some (res.1,
                    (match host_modifications with
                     | some t => t :: res.2.1
                     | none => res.2.1),
                    (match host_move with
                     | some t => t :: res.2.2
                     | none => res.2.2))

/-- Embedding of
`cmdb_hostnames = set(normalize_hostname(host[hostname_field]) for host in cmdb_hosts)`
(line 1433); only membership in the set is ever used. -/
def collect_hostnames (hostname_field : String) : List Record → Option (List String)
  | [] => some []
  | host :: rest =>
    match dict_get host hostname_field with
    | none => none
    | some raw =>
      match collect_hostnames hostname_field rest with
      | none => none
      | some names => some (normalize_hostname raw :: names)

/-- Embedding of `FileConnector._partition_hosts` (lines 1104-1445).  Returns
`(hosts_to_create, hosts_to_modify, hosts_to_delete, hosts_to_move)`, in the
source's return order.  The configured regex filters are abstracted as
predicates, and `set_order` is the process's iteration order of the
`IP_ATTRIBUTES` set. -/
def partition_hosts (global_ident : String)
    (host_filters host_overtake_filters : List (String → Bool))
    (label_pfx : Option String) (label_path_template folder : String)
    (set_order : List String) (cmdb_hosts : List Record)
    (cmk_hosts : List (String × CmkHost)) (hostname_field : String)
    (cmk_tags : Option (List (String × List String))) (update_ips : Bool) :
    Option (List CreateTuple × List ModifyTuple × List String × List MoveTuple) :=
  let ownership := partition_ownership global_ident host_overtake_filters cmk_hosts
  let hosts_managed_by_plugin := ownership.1
  let hosts_to_overtake := ownership.2.1
  let unrelated_hosts := ownership.2.2
  let tag_matcher := cmk_tags.map TagMatcher.mk
  let get_folder_path : List (String × String) → String :=
    if label_path_template ≠ "" then
      let path_labels := split_str label_path_template PATH_SEPERATOR
      fun labels => get_dynamic_folder_path folder labels path_labels path_labels.length
    else fun _ => folder
  match reconcile_records tag_matcher get_folder_path host_filters label_pfx update_ips
      hosts_to_overtake unrelated_hosts global_ident set_order cmk_hosts
      hostname_field cmdb_hosts with
  | none => none
  | some res =>
    match collect_hostnames hostname_field cmdb_hosts with
    | none => none
    | some cmdb_hostnames =>
      let hosts_to_delete :=
        (hosts_managed_by_plugin.map Prod.fst).filter
          (fun n => !str_elem n cmdb_hostnames)
      some (res.1, res.2.1, hosts_to_delete, res.2.2)

-- # Lemmas about the base dictionary/string model

theorem char_toNat_ofNat_valid (n : Nat) (h : n.isValidChar) :
    (Char.ofNat n).toNat = n := by
  simp only [Char.ofNat, dif_pos h, Char.ofNatAux, Char.toNat, UInt32.toNat]
  simp

theorem charToLower_idem (c : Char) : (c.toLower).toLower = c.toLower := by
  show Char.toLower c.toLower = c.toLower
  by_cases h : c.toNat ≥ 65 ∧ c.toNat ≤ 90
  · have hlow : c.toLower = Char.ofNat (c.toNat + 32) := by
      simp [Char.toLower, h]
    have hv : (c.toNat + 32).isValidChar := by
      left
      omega
    rw [hlow]
    simp [Char.toLower, char_toNat_ofNat_valid _ hv]
    omega
  · have hlow : c.toLower = c := by
      simp [Char.toLower]
      omega
    rw [hlow]
    exact hlow

theorem toLowerStr_idem (s : String) : toLowerStr (toLowerStr s) = toLowerStr s := by
  simp [toLowerStr, List.map_map, Function.comp_def, charToLower_idem]

theorem dict_get_set {α : Type} (d : List (String × α)) (key k : String) (v : α) :
    dict_get (dict_set d key v) k = if k = key then some v else dict_get d k := by
  induction d with
  | nil =>
    by_cases h : k = key
    · simp [dict_set, dict_get, h]
    · have h' : ¬key = k := fun hc => h hc.symm
      simp [dict_set, dict_get, h, h']
  | cons kv rest ih =>
    by_cases hkv : kv.1 = key
    · by_cases hk : k = key
      · simp [dict_set, dict_get, hkv, hk]
      · have hk' : ¬key = k := fun hc => hk hc.symm
        have hkvk : ¬kv.1 = k := by rw [hkv]; exact hk'
        simp [dict_set, dict_get, hkv, hk, hk', hkvk]
    · by_cases hkvk : kv.1 = k <;> by_cases hk : k = key <;>
        simp_all [dict_set, dict_get]

/-- Every entry of `dict_set d key v` either has key `key` or comes from `d`. -/
theorem mem_dict_set {α : Type} (d : List (String × α)) (key : String) (v : α)
    (kv : String × α) (h : kv ∈ dict_set d key v) : kv.1 = key ∨ kv ∈ d := by
  induction d with
  | nil => simp [dict_set] at h; simp [h]
  | cons p rest ih =>
    by_cases hp : p.1 = key
    · simp only [dict_set, hp, if_true] at h
      rcases List.mem_cons.mp h with h1 | h2
      · left; simp [h1]
      · right; exact List.mem_cons_of_mem _ h2
    · simp only [dict_set, hp, if_false] at h
      rcases List.mem_cons.mp h with h1 | h2
      · right; simp [h1]
      · rcases ih h2 with h3 | h4
        · left; exact h3
        · right; exact List.mem_cons_of_mem _ h4

-- # C9: idempotence of normalize_hostname

/-- C9: `normalize_hostname` is idempotent: normalizing an already normalized
hostname changes nothing, so remote hostnames stored in normalized form
compare equal to re-normalized import hostnames. -/
theorem C9_normalize_hostname_idempotent (s : String) :
    normalize_hostname (normalize_hostname s) = normalize_hostname s := by
  have hchar : ∀ c : Char,
      (if (if c.toLower = ' ' then '_' else c.toLower).toLower = ' ' then '_'
       else (if c.toLower = ' ' then '_' else c.toLower).toLower) =
      if c.toLower = ' ' then '_' else c.toLower := by
    intro c
    by_cases h : c.toLower = ' '
    · simp [h]
    · simp only [h, if_false, charToLower_idem, h]
  simp only [normalize_hostname, replace_spaces, toLowerStr, List.map_map]
  congr 1
  apply List.map_congr_left
  intro c _
  exact hchar c

-- # C4: get_ip_address and the unordered IP_ATTRIBUTES set

/-- C4 counterexample: the claim asserts that `get_ip_address` consults the IP
field names in the fixed order `ipv4`, `ip`, `ipaddress` and is deterministic
across runs.  The source iterates the *set* `IP_ATTRIBUTES`, and two valid
iteration orders of that set (both permutations of its elements) give
different results on a record containing both an `ipv4` and an `ip` field, so
the result is not a function of the record alone. -/
theorem C4_get_ip_address_counterexample :
    (["ip", "ipv4", "ipaddress"] : List String).Perm IP_ATTRIBUTES
    ∧ get_ip_address ["ipv4", "ip", "ipaddress"]
        [("ipv4", "1.1.1.1"), ("ip", " 2.2.2.2 ,3.3.3.3")] = some "1.1.1.1"
    ∧ get_ip_address ["ip", "ipv4", "ipaddress"]
        [("ipv4", "1.1.1.1"), ("ip", " 2.2.2.2 ,3.3.3.3")] = some "2.2.2.2"
    ∧ (some "2.2.2.2" : Option String) ≠ some "1.1.1.1" := by
  refine ⟨by decide, by decide, by decide, by decide⟩

theorem get_ip_address_eq_none_iff (set_order : List String) (host : Record) :
    get_ip_address set_order host = none ↔
      ∀ f ∈ set_order, dict_get host f = none := by
  induction set_order with
  | nil => simp [get_ip_address]
  | cons f rest ih =>
    cases hf : dict_get host f with
    | none => simp [get_ip_address, hf, ih]
    | some v => simp [get_ip_address, hf]

/-- C4 amended: `get_ip_address` consults the IP field names in the iteration
order of the `IP_ATTRIBUTES` set, which is some enumeration of
`{ipv4, ip, ipaddress}` not fixed by the code.  For every such enumeration the
result is `none` exactly when the record has none of the three fields, and
otherwise it is the trimmed text before the first comma of the value of the
first field of the enumeration present in the record. -/
theorem C4_get_ip_address_amended (set_order : List String) (host : Record)
    (hperm : set_order.Perm IP_ATTRIBUTES) :
    (get_ip_address set_order host = none ↔
      ∀ f ∈ IP_ATTRIBUTES, dict_get host f = none)
    ∧ (∀ f, set_order.find? (fun g => (dict_get host g).isSome) = some f →
        ∃ v, dict_get host f = some v ∧
          get_ip_address set_order host = some (str_strip (first_comma_field v))) := by
  constructor
  · rw [get_ip_address_eq_none_iff]
    constructor
    · intro h f hf
      exact h f (hperm.mem_iff.mpr hf)
    · intro h f hf
      exact h f (hperm.mem_iff.mp hf)
  · clear hperm
    induction set_order with
    | nil => intro f hf; simp [List.find?] at hf
    | cons g rest ih =>
      intro f hf
      cases hg : dict_get host g with
      | some v =>
        have hfind : List.find? (fun x => (dict_get host x).isSome) (g :: rest) =
            some g := by
          simp [List.find?, hg]
        rw [hfind] at hf
        cases hf
        exact ⟨v, hg, by simp [get_ip_address, hg]⟩
      | none =>
        have hfind : List.find? (fun x => (dict_get host x).isSome) (g :: rest) =
            List.find? (fun x => (dict_get host x).isSome) rest := by
          simp [List.find?, hg]
        rw [hfind] at hf
        obtain ⟨v, hv, hres⟩ := ih f hf
        exact ⟨v, hv, by simp [get_ip_address, hg, hres]⟩

theorem C4_get_ip_address_amended_witness :
    (["ip", "ipv4", "ipaddress"] : List String).Perm IP_ATTRIBUTES
    ∧ (get_ip_address ["ip", "ipv4", "ipaddress"] [("hostname", "h")] = none ↔
        ∀ f ∈ IP_ATTRIBUTES, dict_get [("hostname", "h")] f = none) :=
  ⟨by decide,
    (C4_get_ip_address_amended ["ip", "ipv4", "ipaddress"] [("hostname", "h")]
      (by decide)).1⟩

-- # C7: folder path generation

/-- C7: the folder path generator is a function of its inputs, and for an
empty labels map it yields the placeholder `undefined` once per configured
key, joined with `/`; in particular two keys yield `undefined/undefined`. -/
theorem C7_folder_path_determinism_and_placeholder :
    (∀ (cfg₁ cfg₂ : String) (l₁ l₂ : List (String × String)) (k₁ k₂ : List String)
        (d₁ d₂ : Nat), cfg₁ = cfg₂ → l₁ = l₂ → k₁ = k₂ → d₁ = d₂ →
        get_dynamic_folder_path cfg₁ l₁ k₁ d₁ = get_dynamic_folder_path cfg₂ l₂ k₂ d₂)
    ∧ (∀ keys : List String,
        get_dynamic_folder_path "" [] keys keys.length =
          String.intercalate PATH_SEPERATOR
            (List.replicate keys.length FOLDER_PLACEHOLDER))
    ∧ get_dynamic_folder_path "" [] ["a", "b"] 2 = "undefined/undefined" := by
  refine ⟨?_, ?_, by decide⟩
  · intro cfg₁ cfg₂ l₁ l₂ k₁ k₂ d₁ d₂ h1 h2 h3 h4
    rw [h1, h2, h3, h4]
  · intro keys
    have hph : replace_spaces FOLDER_PLACEHOLDER = FOLDER_PLACEHOLDER := by decide
    simp [get_dynamic_folder_path, generate_path_from_labels, List.map_replicate, hph]

theorem C7_folder_path_witness :
    get_dynamic_folder_path "" [] ["a", "b"] 2 = get_dynamic_folder_path "" [] ["a", "b"] 2
    ∧ get_dynamic_folder_path "" [] ["a", "b"] 2 = "undefined/undefined" :=
  ⟨C7_folder_path_determinism_and_placeholder.1 "" "" [] [] ["a", "b"] ["a", "b"] 2 2
      rfl rfl rfl rfl,
    C7_folder_path_determinism_and_placeholder.2.2⟩

-- # C5 and C10: the Chunker

/-- C5: for a batch of 7 create items and chunk size 3, the wrapped
`add_hosts` is called exactly three times, with the groups of sizes 3, 3 and
1 in the original order, and `activate_changes` is called once after each
call.  A create item is a non-empty Python tuple and hence always truthy, and
`add_hosts` returns a dict with the keys `failed_hosts` and `succeeded_hosts`
and hence a truthy value, so both truthiness parameters are constantly true. -/
theorem C5_chunked_apply_seven_items (t1 t2 t3 t4 t5 t6 t7 : CreateTuple) :
    chunk_returning_call_events (fun _ => true) (fun _ => true) 3
        [t1, t2, t3, t4, t5, t6, t7] =
      [.addHosts [t1, t2, t3], .activate, .addHosts [t4, t5, t6], .activate,
        .addHosts [t7], .activate] := rfl

theorem chunk_submitted_append {α : Type} (truthy : α → Bool)
    (xs ys : List (Option α)) :
    chunk_submitted truthy (xs ++ ys) =
      chunk_submitted truthy xs ++ chunk_submitted truthy ys := by
  simp [chunk_submitted, List.filterMap_append]

theorem chunk_submitted_replicate_none {α : Type} (truthy : α → Bool) (n : Nat) :
    chunk_submitted truthy (List.replicate n (none : Option α)) = [] := by
  induction n with
  | zero => rfl
  | succ m ih =>
    simp only [chunk_submitted, List.replicate_succ, List.filterMap_cons] at ih ⊢
    exact ih

theorem chunk_submitted_map_some {α : Type} (truthy : α → Bool) :
    ∀ l : List α, (∀ a ∈ l, truthy a = true) →
      chunk_submitted truthy (l.map some) = l := by
  intro l
  induction l with
  | nil => intro _; rfl
  | cons a rest ih =>
    intro h
    have ha : truthy a = true := h a (List.mem_cons_self _ _)
    have htail := ih (fun x hx => h x (List.mem_cons_of_mem _ hx))
    simp only [chunk_submitted, List.map_cons, List.filterMap_cons] at htail ⊢
    simp [ha, htail]

theorem chunks_pad_aux_flatten {α : Type} (truthy : α → Bool) (count : Nat)
    (hcount : 0 < count) :
    ∀ (fuel : Nat) (l : List α), l.length ≤ fuel → (∀ a ∈ l, truthy a = true) →
      ((chunks_pad_aux count fuel l).map (chunk_submitted truthy)).flatten = l := by
  intro fuel
  induction fuel with
  | zero =>
    intro l hl ht
    cases l with
    | nil => rfl
    | cons a rest => simp at hl
  | succ f ih =>
    intro l hl ht
    cases l with
    | nil => rfl
    | cons a rest =>
      have hsub : chunk_submitted truthy (((a :: rest).take count).map some ++
          List.replicate (count - (a :: rest).length) none) = (a :: rest).take count := by
        rw [chunk_submitted_append, chunk_submitted_replicate_none,
          chunk_submitted_map_some truthy _
            (fun x hx => ht x (List.take_subset count (a :: rest) hx)),
          List.append_nil]
      have hdroplen : ((a :: rest).drop count).length ≤ f := by
        rw [List.length_drop]
        simp only [List.length_cons] at hl ⊢
        omega
      have hdropmem : ∀ x ∈ (a :: rest).drop count, truthy x = true :=
        fun x hx => ht x (List.drop_subset count (a :: rest) hx)
      simp only [chunks_pad_aux, List.map_cons, List.flatten_cons, hsub,
        ih ((a :: rest).drop count) hdroplen hdropmem]
      exact List.take_append_drop count (a :: rest)

/-- C10: the Chunker loses and duplicates nothing: for every chunk size
`k > 0` and every list of truthy items, concatenating the groups submitted by
the chunked call wrappers (the chunks with the `zip_longest` padding filtered
out) yields exactly the original list in order. -/
theorem C10_chunker_no_loss {α : Type} (truthy : α → Bool) (chunk_size : Nat)
    (items : List α) (hk : 0 < chunk_size) (ht : ∀ a ∈ items, truthy a = true) :
    (submitted_groups truthy chunk_size items).flatten = items := by
  unfold submitted_groups chunks
  rw [if_neg (by omega)]
  exact chunks_pad_aux_flatten truthy chunk_size hk items.length items le_rfl ht

theorem C10_chunker_no_loss_witness :
    0 < 3 ∧ (submitted_groups (fun n => decide (0 < n)) 3 [1, 2, 3, 4]).flatten =
      [1, 2, 3, 4] :=
  ⟨by decide,
    C10_chunker_no_loss (fun n => decide (0 < n)) 3 [1, 2, 3, 4] (by decide)
      (by decide)⟩

-- # C8: key casing of labels and attributes

theorem toLowerStr_str_drop (s : String) (n : Nat) (h : toLowerStr s = s) :
    toLowerStr (str_drop s n) = str_drop s n := by
  have hdata : s.data.map Char.toLower = s.data := congrArg String.data h
  simp only [toLowerStr, str_drop]
  rw [List.map_drop, hdata]

theorem toLowerStr_unlabelify (s : String) (h : toLowerStr s = s) :
    toLowerStr (unlabelify s) = unlabelify s := by
  unfold unlabelify
  split
  · exact toLowerStr_str_drop s 6 h
  · exact h

theorem label_fold_lower (k : String) (values : List String) :
    ∀ (t : List (String × String)), (∀ kv ∈ t, toLowerStr kv.1 = kv.1) →
      ∀ kv ∈ values.foldl
          (fun t v => dict_set t (toLowerStr (k ++ "/" ++ v)) "true") t,
        toLowerStr kv.1 = kv.1 := by
  induction values with
  | nil => intro t ht kv hkv; exact ht kv hkv
  | cons v vs ih =>
    intro t ht kv hkv
    simp only [List.foldl_cons] at hkv
    refine ih _ ?_ kv hkv
    intro p hp
    rcases mem_dict_set _ _ _ p hp with h1 | h2
    · rw [h1]; exact toLowerStr_idem _
    · exact ht p h2

theorem build_label_tmp_lower (hostname_field : String) :
    ∀ (host tmp out : List (String × String)),
      build_label_tmp hostname_field host tmp = some out →
      (∀ kv ∈ tmp, toLowerStr kv.1 = kv.1) →
      ∀ kv ∈ out, toLowerStr kv.1 = kv.1 := by
  intro host
  induction host with
  | nil =>
    intro tmp out hout htmp
    simp only [build_label_tmp, Option.some.injEq] at hout
    rw [← hout]
    exact htmp
  | cons kv0 rest ih =>
    intro tmp out hout htmp
    obtain ⟨key, value⟩ := kv0
    simp only [build_label_tmp] at hout
    split at hout
    · exact ih tmp out hout htmp
    · split at hout
      · cases hsk : split_sep_key key with
        | none =>
          rw [hsk] at hout
          cases hout
        | some pr =>
          obtain ⟨k1, sep1⟩ := pr
          rw [hsk] at hout
          dsimp only at hout
          by_cases hsep : sep1 = ""
          · rw [if_pos hsep] at hout
            cases hout
          · rw [if_neg hsep] at hout
            exact ih _ out hout (label_fold_lower k1 _ tmp htmp)
      · refine ih _ out hout ?_
        intro p hp
        rcases mem_dict_set _ _ _ p hp with h1 | h2
        · rw [h1]; exact toLowerStr_idem _
        · exact htmp p h2

/-- C8 counterexample: `get_host_attributes` does not lowercase the remaining
key; a record key `Attr_Owner` yields the attribute key `Owner`, which is not
a lowercase string, so comparisons on attribute keys are not case-folded. -/
theorem C8_attribute_key_counterexample :
    get_host_attributes [("Attr_Owner", "x")] = [("Owner", "x")]
    ∧ toLowerStr "Owner" ≠ "Owner" := by
  exact ⟨by decide, by decide⟩

/-- C8 amended: every label key produced by `get_host_label` is a lowercase
string, but an attribute key produced by `get_host_attributes` is the
original record key with its first five characters (the case-insensitive
`attr_` marker) removed, its casing preserved. -/
theorem C8_label_keys_lower_attr_keys_preserved (host : Record)
    (hostname_field : String) :
    (∀ labels, get_host_label host hostname_field = some labels →
      ∀ kv ∈ labels, toLowerStr kv.1 = kv.1)
    ∧ (∀ kv ∈ get_host_attributes host,
        ∃ orig, (orig, kv.2) ∈ host ∧ kv.1 = unprefix_attr orig ∧
          is_attribute orig = true) := by
  constructor
  · intro labels h kv hkv
    unfold get_host_label at h
    cases hb : build_label_tmp hostname_field host [] with
    | none => rw [hb] at h; cases h
    | some tmp =>
      rw [hb] at h
      simp only [Option.some.injEq] at h
      rw [← h] at hkv
      obtain ⟨p, hp, hpe⟩ := List.mem_map.mp hkv
      have hlow := build_label_tmp_lower hostname_field host [] tmp hb
        (by intro kv h'; cases h') p (List.mem_of_mem_filter hp)
      rw [← hpe]
      exact toLowerStr_unlabelify _ hlow
  · intro kv hkv
    unfold get_host_attributes at hkv
    obtain ⟨p, hp, hpe⟩ := List.mem_map.mp hkv
    have hmem := List.mem_of_mem_filter hp
    have hpred := List.of_mem_filter hp
    rw [Bool.and_eq_true] at hpred
    refine ⟨p.1, ?_, ?_, hpred.1⟩
    · rw [← hpe]; exact hmem
    · rw [← hpe]

theorem C8_label_keys_lower_witness :
    get_host_label [("Host", "h1"), ("Label_Site", "Berlin"), ("Attr_Owner", "me")]
        "Host" = some [("site", "Berlin")]
    ∧ toLowerStr "site" = "site" :=
  ⟨by decide,
    (C8_label_keys_lower_attr_keys_preserved
        [("Host", "h1"), ("Label_Site", "Berlin"), ("Attr_Owner", "me")] "Host").1
      [("site", "Berlin")] (by decide) ("site", "Berlin") (by decide)⟩

-- # C6: TagMatcher resolution

theorem dict_get_fold_norm_isSome (x : String) :
    ∀ (tags : List (String × List String)) (acc : List (String × String)),
      (dict_get (tags.foldl (fun acc kv => dict_set acc (toLowerStr kv.1) kv.1) acc)
          x).isSome =
        ((dict_get acc x).isSome || tags.any (fun kv => decide (toLowerStr kv.1 = x))) := by
  intro tags
  induction tags with
  | nil => intro acc; simp
  | cons kv rest ih =>
    intro acc
    simp only [List.foldl_cons, List.any_cons]
    rw [ih]
    by_cases hx : x = toLowerStr kv.1
    · simp [dict_get_set, hx]
    · have hx' : ¬toLowerStr kv.1 = x := fun hc => hx hc.symm
      simp [dict_get_set, hx, hx']

theorem normalized_names_isSome (tags : List (String × List String)) (x : String) :
    (dict_get (normalized_names tags) x).isSome =
      tags.any (fun kv => decide (toLowerStr kv.1 = x)) := by
  unfold normalized_names
  rw [dict_get_fold_norm_isSome]
  simp [dict_get]

/-- C6: `TagMatcher.get_tag` tries an exact match against the known tag-group
identifiers first and a case-insensitive match second; resolution succeeds
exactly when some catalog identifier agrees with the requested name up to
case, `Tag_Location` and `tag_location` both resolve to the canonical
`tag_location` in a catalog built from the `location` group, and a name
matching no entry under either comparison yields the unknown-tag error. -/
theorem C6_tag_matcher_resolution (tags : List (String × List String)) (name : String) :
    ((∃ canonical, (TagMatcher.mk tags).get_tag name = .ok canonical) ↔
      ∃ kv ∈ tags, toLowerStr kv.1 = toLowerStr name)
    ∧ (tags.any (fun kv => decide (kv.1 = name)) = true →
        (TagMatcher.mk tags).get_tag name = .ok name)
    ∧ (TagMatcher.mk (create_hostlike_tags [("location", ["munich", "berlin"])])).get_tag
        "Tag_Location" = .ok "tag_location"
    ∧ (TagMatcher.mk (create_hostlike_tags [("location", ["munich", "berlin"])])).get_tag
        "tag_location" = .ok "tag_location"
    ∧ (TagMatcher.mk (create_hostlike_tags [("location", ["munich", "berlin"])])).get_tag
        "tag_site" = .error "UnknownTagError" := by
  refine ⟨?_, ?_, by rfl, by rfl, by rfl⟩
  · unfold TagMatcher.get_tag
    by_cases hexact : tags.any (fun kv => decide (kv.1 = name)) = true
    · simp only [hexact, if_true]
      constructor
      · intro _
        obtain ⟨kv, hkv, hdec⟩ := List.any_eq_true.mp hexact
        exact ⟨kv, hkv, by rw [of_decide_eq_true hdec]⟩
      · intro _
        exact ⟨name, rfl⟩
    · simp only [hexact, if_false]
      cases hdg : dict_get (normalized_names tags) (toLowerStr name) with
      | some canonical =>
        have hsome : (dict_get (normalized_names tags) (toLowerStr name)).isSome = true := by
          rw [hdg]; rfl
        rw [normalized_names_isSome] at hsome
        obtain ⟨kv, hkv, hdec⟩ := List.any_eq_true.mp hsome
        constructor
        · intro _
          exact ⟨kv, hkv, of_decide_eq_true hdec⟩
        · intro _
          exact ⟨canonical, rfl⟩
      | none =>
        have hnone : (dict_get (normalized_names tags) (toLowerStr name)).isSome = false := by
          rw [hdg]; rfl
        rw [normalized_names_isSome] at hnone
        constructor
        · intro ⟨c, hc⟩
          cases hc
        · intro ⟨kv, hkv, heq⟩
          have : tags.any (fun kv => decide (toLowerStr kv.1 = toLowerStr name)) = true :=
            List.any_eq_true.mpr ⟨kv, hkv, decide_eq_true heq⟩
          rw [hnone] at this
          cases this
  · intro hany
    unfold TagMatcher.get_tag
    simp only [hany, if_true]

theorem C6_tag_matcher_witness :
    (TagMatcher.mk (create_hostlike_tags [("location", ["munich", "berlin"])])).get_tag
        "tag_location" = .ok "tag_location" :=
  (C6_tag_matcher_resolution (create_hostlike_tags [("location", ["munich", "berlin"])])
      "tag_location").2.1 (by decide)

-- # Helper lemmas for the partition proofs (C1, C2, C3)

theorem str_elem_iff_mem (x : String) (l : List String) :
    str_elem x l = true ↔ x ∈ l := by
  simp only [str_elem, List.any_eq_true]
  constructor
  · intro ⟨y, hy, hdec⟩
    rw [← of_decide_eq_true hdec]
    exact hy
  · intro hx
    exact ⟨x, hx, by simp⟩

theorem dict_get_of_mem_nodup {α : Type} :
    ∀ l : List (String × α), (l.map Prod.fst).Nodup →
      ∀ p : String × α, p ∈ l → dict_get l p.1 = some p.2 := by
  intro l
  induction l with
  | nil => intro _ p hp; cases hp
  | cons q rest ih =>
    intro hnd p hp
    simp only [List.map_cons, List.nodup_cons] at hnd
    rcases List.mem_cons.mp hp with rfl | hmem
    · simp [dict_get]
    · have hq : q.1 ≠ p.1 := by
        intro hc
        apply hnd.1
        rw [hc]
        exact List.mem_map_of_mem Prod.fst hmem
      simp only [dict_get, hq, if_false]
      exact ih hnd.2 p hmem

theorem nodup_keys_eq {α : Type} :
    ∀ l : List (String × α), (l.map Prod.fst).Nodup →
      ∀ p q : String × α, p ∈ l → q ∈ l → p.1 = q.1 → p = q := by
  intro l
  induction l with
  | nil => intro _ p q hp; cases hp
  | cons r rest ih =>
    intro hnd p q hp hq hpq
    simp only [List.map_cons, List.nodup_cons] at hnd
    rcases List.mem_cons.mp hp with rfl | hpm
    · rcases List.mem_cons.mp hq with rfl | hqm
      · rfl
      · exfalso
        apply hnd.1
        rw [hpq]
        exact List.mem_map_of_mem Prod.fst hqm
    · rcases List.mem_cons.mp hq with rfl | hqm
      · exfalso
        apply hnd.1
        rw [← hpq]
        exact List.mem_map_of_mem Prod.fst hpm
      · exact ih hnd.2 p q hpm hqm hpq

theorem partition_ownership_unrelated_mem (gid : String)
    (filters : List (String → Bool)) :
    ∀ (l : List (String × CmkHost)) (p : String × CmkHost), p ∈ l →
      dict_get p.2.attributes "locked_by" ≠ some (.ident gid) →
      ¬(overtake_host filters p.1 = true ∧
        locked_truthy (dict_get p.2.attributes "locked_by") = false) →
      p.1 ∈ (partition_ownership gid filters l).2.2 := by
  intro l
  induction l with
  | nil => intro p hp; cases hp
  | cons q rest ih =>
    intro p hp h1 h2
    rcases List.mem_cons.mp hp with rfl | hmem
    · have h1' : ¬dict_get p.2.attributes "locked_by" = some (.ident gid) := h1
      have h2' : ¬(overtake_host filters p.1 &&
          !locked_truthy (dict_get p.2.attributes "locked_by")) = true := by
        intro hc
        rw [Bool.and_eq_true, Bool.not_eq_true'] at hc
        exact h2 hc
      simp only [partition_ownership]
      rw [if_neg h1', if_neg h2']
      exact List.mem_cons_self _ _
    · simp only [partition_ownership]
      split
      · exact ih p hmem h1 h2
      · split
        · exact ih p hmem h1 h2
        · exact List.mem_cons_of_mem _ (ih p hmem h1 h2)

theorem partition_ownership_managed_mem (gid : String)
    (filters : List (String → Bool)) :
    ∀ (l : List (String × CmkHost)) (q : String × CmkHost),
      q ∈ (partition_ownership gid filters l).1 →
      q ∈ l ∧ dict_get q.2.attributes "locked_by" = some (.ident gid) := by
  intro l
  induction l with
  | nil => intro q hq; cases hq
  | cons p rest ih =>
    intro q hq
    simp only [partition_ownership] at hq
    split at hq
    · next hcond =>
      rcases List.mem_cons.mp hq with rfl | hqm
      · exact ⟨List.mem_cons_self _ _, hcond⟩
      · obtain ⟨hm, hc⟩ := ih q hqm
        exact ⟨List.mem_cons_of_mem _ hm, hc⟩
    · split at hq
      · obtain ⟨hm, hc⟩ := ih q hq
        exact ⟨List.mem_cons_of_mem _ hm, hc⟩
      · obtain ⟨hm, hc⟩ := ih q hq
        exact ⟨List.mem_cons_of_mem _ hm, hc⟩

theorem collect_hostnames_mem (hostname_field : String) :
    ∀ (records : List Record) (names : List String),
      collect_hostnames hostname_field records = some names →
      ∀ host ∈ records, ∀ raw, dict_get host hostname_field = some raw →
        normalize_hostname raw ∈ names := by
  intro records
  induction records with
  | nil => intro names _ host hh; cases hh
  | cons r rest ih =>
    intro names h host hh raw hraw
    unfold collect_hostnames at h
    rcases List.mem_cons.mp hh with rfl | hmem
    · rw [hraw] at h
      dsimp only at h
      split at h
      · cases h
      · next ns hns =>
        injection h with h2
        rw [← h2]
        exact List.mem_cons_self _ _
    · split at h
      · cases h
      · next raw0 hraw0 =>
        split at h
        · cases h
        · next ns hns =>
          injection h with h2
          rw [← h2]
          exact List.mem_cons_of_mem _ (ih ns hns host hmem raw hraw)

theorem get_host_creation_tuple_fst (tag_matcher : Option TagMatcher)
    (get_folder_path : List (String × String) → String) (label_pfx : Option String)
    (global_ident : String) (set_order : List String) (cmdb_host : Record)
    (hostname_field hostname : String) (t : CreateTuple)
    (h : get_host_creation_tuple tag_matcher get_folder_path label_pfx global_ident
        set_order cmdb_host hostname_field hostname = some t) : t.1 = hostname := by
  unfold get_host_creation_tuple at h
  split at h
  · cases h
  · dsimp only at h
    split at h
    · cases h
    · injection h with h2
      rw [← h2]

theorem build_modification_fst (label_pfx : Option String) (update_ips : Bool)
    (global_ident : String) (existing_host : CmkHost) (ctx : ModContext) :
    (build_modification label_pfx update_ips global_ident existing_host ctx).1 =
      ctx.hostname := rfl

theorem modification_context_hostname (tag_matcher : Option TagMatcher)
    (label_pfx : Option String) (hosts_to_overtake : List String)
    (set_order : List String) (existing_host : CmkHost) (cmdb_host : Record)
    (hostname_field : String) (ctx : ModContext)
    (h : modification_context tag_matcher label_pfx hosts_to_overtake set_order
        existing_host cmdb_host hostname_field = some ctx) :
    ∃ raw, dict_get cmdb_host hostname_field = some raw ∧
      ctx.hostname = normalize_hostname raw ∧
      ctx.overtake = str_elem (normalize_hostname raw) hosts_to_overtake := by
  unfold modification_context at h
  split at h
  · cases h
  · next raw hraw =>
    refine ⟨raw, hraw, ?_⟩
    dsimp only at h
    split at h
    · cases h
    · split at h
      · cases h
      · split at h
        · cases h
        · injection h with h2
          rw [← h2]
          exact ⟨rfl, rfl⟩

theorem get_host_modification_tuple_fst (tag_matcher : Option TagMatcher)
    (label_pfx : Option String) (update_ips : Bool) (hosts_to_overtake : List String)
    (global_ident : String) (set_order : List String) (existing_host : CmkHost)
    (cmdb_host : Record) (hostname_field : String) (t : ModifyTuple)
    (h : get_host_modification_tuple tag_matcher label_pfx update_ips
        hosts_to_overtake global_ident set_order existing_host cmdb_host
        hostname_field = some (some t)) :
    ∃ raw, dict_get cmdb_host hostname_field = some raw ∧
      t.1 = normalize_hostname raw := by
  unfold get_host_modification_tuple at h
  cases hctx : modification_context tag_matcher label_pfx hosts_to_overtake set_order
      existing_host cmdb_host hostname_field with
  | none => rw [hctx] at h; cases h
  | some ctx =>
    rw [hctx] at h
    dsimp only at h
    obtain ⟨raw, hraw, hname, _⟩ := modification_context_hostname tag_matcher label_pfx
      hosts_to_overtake set_order existing_host cmdb_host hostname_field ctx hctx
    by_cases hu : update_needed update_ips ctx = true
    · rw [if_pos hu] at h
      injection h with h2
      injection h2 with h3
      refine ⟨raw, hraw, ?_⟩
      rw [← h3, build_modification_fst]
      exact hname
    · rw [if_neg hu] at h
      injection h with h2
      cases h2

theorem get_host_move_tuple_fst (get_folder_path : List (String × String) → String)
    (existing_host : CmkHost) (cmdb_host : Record) (hostname_field : String)
    (t : MoveTuple)
    (h : get_host_move_tuple get_folder_path existing_host cmdb_host hostname_field =
      some (some t)) :
    ∃ raw, dict_get cmdb_host hostname_field = some raw ∧
      t.1 = normalize_hostname raw := by
  unfold get_host_move_tuple at h
  split at h
  · cases h
  · next raw hraw =>
    refine ⟨raw, hraw, ?_⟩
    dsimp only at h
    split at h
    · cases h
    · split at h
      · injection h with h2
        injection h2 with h3
        rw [← h3]
      · injection h with h2
        cases h2

theorem reconcile_records_spec (tag_matcher : Option TagMatcher)
    (get_folder_path : List (String × String) → String)
    (host_filters : List (String → Bool)) (label_pfx : Option String)
    (update_ips : Bool) (hosts_to_overtake unrelated_hosts : List String)
    (global_ident : String) (set_order : List String)
    (cmk_hosts : List (String × CmkHost)) (hostname_field : String) :
    ∀ (records : List Record)
      (res : List CreateTuple × List ModifyTuple × List MoveTuple),
      reconcile_records tag_matcher get_folder_path host_filters label_pfx update_ips
          hosts_to_overtake unrelated_hosts global_ident set_order cmk_hosts
          hostname_field records = some res →
      (∀ t ∈ res.1, dict_get cmk_hosts t.1 = none)
      ∧ (∀ t ∈ res.2.1, str_elem t.1 unrelated_hosts = false ∧
          (dict_get cmk_hosts t.1).isSome = true)
      ∧ (∀ t ∈ res.2.2, str_elem t.1 unrelated_hosts = false ∧
          (dict_get cmk_hosts t.1).isSome = true) := by
  intro records
  induction records with
  | nil =>
    intro res h
    simp only [reconcile_records, Option.some.injEq] at h
    rw [← h]
    refine ⟨?_, ?_, ?_⟩ <;> intro t ht <;> cases ht
  | cons host rest ih =>
    intro res h
    unfold reconcile_records at h
    split at h
    · cases h
    · next raw hraw =>
      dsimp only at h
      split at h
      · exact ih res h
      · next hfil =>
        split at h
        · next hnone =>
          split at h
          · cases h
          · next ct hct =>
            split at h
            · cases h
            · next res0 hres0 =>
              injection h with h2
              obtain ⟨ih1, ih2, ih3⟩ := ih res0 hres0
              rw [← h2]
              refine ⟨?_, ih2, ih3⟩
              intro t ht
              rcases List.mem_cons.mp ht with rfl | htm
              · rw [get_host_creation_tuple_fst tag_matcher get_folder_path label_pfx
                  global_ident set_order host hostname_field
                  (normalize_hostname raw) t hct]
                exact hnone
              · exact ih1 t htm
        · next existing_host hsome =>
          split at h
          · exact ih res h
          · next hunrel =>
            split at h
            · cases h
            · next host_modifications hmod =>
              split at h
              · cases h
              · next host_move hmove =>
                split at h
                · cases h
                · next res0 hres0 =>
                  injection h with h2
                  obtain ⟨ih1, ih2, ih3⟩ := ih res0 hres0
                  rw [← h2]
                  have hun : str_elem (normalize_hostname raw) unrelated_hosts = false :=
                    Bool.not_eq_true _ ▸ Bool.of_not_eq_true hunrel
                  have hsm : (dict_get cmk_hosts (normalize_hostname raw)).isSome = true := by
                    rw [hsome]; rfl
                  refine ⟨ih1, ?_, ?_⟩
                  · intro t ht
                    cases host_modifications with
                    | none => exact ih2 t ht
                    | some tm =>
                      rcases List.mem_cons.mp ht with rfl | htm
                      · obtain ⟨raw2, hraw2, hfst⟩ := get_host_modification_tuple_fst
                          tag_matcher label_pfx update_ips hosts_to_overtake global_ident
                          set_order existing_host host hostname_field t hmod
                        rw [hraw] at hraw2
                        injection hraw2 with hr
                        rw [hfst, ← hr]
                        exact ⟨hun, hsm⟩
                      · exact ih2 t htm
                  · intro t ht
                    cases host_move with
                    | none => exact ih3 t ht
                    | some tv =>
                      rcases List.mem_cons.mp ht with rfl | htm
                      · obtain ⟨raw2, hraw2, hfst⟩ := get_host_move_tuple_fst
                          get_folder_path existing_host host hostname_field t hmove
                        rw [hraw] at hraw2
                        injection hraw2 with hr
                        rw [hfst, ← hr]
                        exact ⟨hun, hsm⟩
                      · exact ih3 t htm

-- # C1: ownership invariant

/-- C1: a remote host that is neither locked by this connection's identity
nor an unlocked host matching an overtake filter is placed in the unrelated
partition, and its hostname never appears in any of the four output batches
of `_partition_hosts`, even when the same hostname occurs in the import. -/
theorem C1_unrelated_hosts_never_referenced (global_ident : String)
    (host_filters host_overtake_filters : List (String → Bool))
    (label_pfx : Option String) (label_path_template folder : String)
    (set_order : List String) (cmdb_hosts : List Record)
    (cmk_hosts : List (String × CmkHost)) (hostname_field : String)
    (cmk_tags : Option (List (String × List String))) (update_ips : Bool)
    (c : List CreateTuple) (m : List ModifyTuple) (d : List String)
    (v : List MoveTuple)
    (hnodup : (cmk_hosts.map Prod.fst).Nodup)
    (hpart : partition_hosts global_ident host_filters host_overtake_filters label_pfx
        label_path_template folder set_order cmdb_hosts cmk_hosts hostname_field
        cmk_tags update_ips = some (c, m, d, v))
    (p : String × CmkHost) (hp : p ∈ cmk_hosts)
    (hnotmanaged : dict_get p.2.attributes "locked_by" ≠ some (.ident global_ident))
    (hnoovertake : ¬(overtake_host host_overtake_filters p.1 = true ∧
        locked_truthy (dict_get p.2.attributes "locked_by") = false)) :
    p.1 ∈ (partition_ownership global_ident host_overtake_filters cmk_hosts).2.2
    ∧ (∀ t ∈ c, t.1 ≠ p.1) ∧ (∀ t ∈ m, t.1 ≠ p.1) ∧ (∀ t ∈ v, t.1 ≠ p.1)
    ∧ (∀ n ∈ d, n ≠ p.1) := by
  have hu := partition_ownership_unrelated_mem global_ident host_overtake_filters
    cmk_hosts p hp hnotmanaged hnoovertake
  have hpget : dict_get cmk_hosts p.1 = some p.2 :=
    dict_get_of_mem_nodup cmk_hosts hnodup p hp
  unfold partition_hosts at hpart
  dsimp only at hpart
  split at hpart
  · cases hpart
  · next res hres =>
    split at hpart
    · cases hpart
    · next names hnames =>
      injection hpart with h2
      simp only [Prod.mk.injEq] at h2
      obtain ⟨hc, hm, hd, hv⟩ := h2
      obtain ⟨s1, s2, s3⟩ :=
        reconcile_records_spec _ _ _ _ _ _ _ _ _ _ _ cmdb_hosts res hres
      refine ⟨hu, ?_, ?_, ?_, ?_⟩
      · intro t ht
        have hnone := s1 t (by rw [hc]; exact ht)
        intro hcon
        rw [hcon, hpget] at hnone
        cases hnone
      · intro t ht
        have hfalse := (s2 t (by rw [hm]; exact ht)).1
        intro hcon
        rw [hcon, (str_elem_iff_mem p.1 _).mpr hu] at hfalse
        cases hfalse
      · intro t ht
        have hfalse := (s3 t (by rw [hv]; exact ht)).1
        intro hcon
        rw [hcon, (str_elem_iff_mem p.1 _).mpr hu] at hfalse
        cases hfalse
      · intro n hn
        rw [← hd] at hn
        obtain ⟨q, hq, hqn⟩ := List.mem_map.mp (List.mem_of_mem_filter hn)
        obtain ⟨hqmem, hqc⟩ := partition_ownership_managed_mem global_ident
          host_overtake_filters cmk_hosts q hq
        intro hcon
        have hqp : q = p :=
          nodup_keys_eq cmk_hosts hnodup q p hqmem hp (by rw [hqn, hcon])
        rw [hqp] at hqc
        exact hnotmanaged hqc

-- # C2: deletion safety

/-- C2: every hostname in `hosts_to_delete` belongs to a remote host managed
by this connection (locked by its identity) before the cycle, and no
normalized hostname of any imported record — including records the host
filters would reject — is ever in `hosts_to_delete`. -/
theorem C2_delete_only_managed_never_imported (global_ident : String)
    (host_filters host_overtake_filters : List (String → Bool))
    (label_pfx : Option String) (label_path_template folder : String)
    (set_order : List String) (cmdb_hosts : List Record)
    (cmk_hosts : List (String × CmkHost)) (hostname_field : String)
    (cmk_tags : Option (List (String × List String))) (update_ips : Bool)
    (c : List CreateTuple) (m : List ModifyTuple) (d : List String)
    (v : List MoveTuple)
    (hpart : partition_hosts global_ident host_filters host_overtake_filters label_pfx
        label_path_template folder set_order cmdb_hosts cmk_hosts hostname_field
        cmk_tags update_ips = some (c, m, d, v)) :
    (∀ n ∈ d, ∃ p ∈ cmk_hosts, p.1 = n ∧
        dict_get p.2.attributes "locked_by" = some (.ident global_ident))
    ∧ (∀ host ∈ cmdb_hosts, ∀ raw, dict_get host hostname_field = some raw →
        normalize_hostname raw ∉ d) := by
  unfold partition_hosts at hpart
  dsimp only at hpart
  split at hpart
  · cases hpart
  · next res hres =>
    split at hpart
    · cases hpart
    · next names hnames =>
      injection hpart with h2
      simp only [Prod.mk.injEq] at h2
      obtain ⟨hc, hm, hd, hv⟩ := h2
      constructor
      · intro n hn
        rw [← hd] at hn
        obtain ⟨q, hq, hqn⟩ := List.mem_map.mp (List.mem_of_mem_filter hn)
        obtain ⟨hqmem, hqc⟩ := partition_ownership_managed_mem global_ident
          host_overtake_filters cmk_hosts q hq
        exact ⟨q, hqmem, hqn, hqc⟩
      · intro host hhost raw hraw hin
        rw [← hd] at hin
        have hflt := List.of_mem_filter hin
        have hmemn := collect_hostnames_mem hostname_field cmdb_hosts names hnames
          host hhost raw hraw
        rw [(str_elem_iff_mem _ _).mpr hmemn] at hflt
        cases hflt

-- # C3: modification is emitted exactly for changed or overtaken hosts

/-- C3: for an existing host processed by `get_host_modification_tuple`, when
the host is in the overtake set a modification tuple is always produced, and
when it is not in the overtake set and its compared attributes, labels, tags
(when tag matching is enabled) and IP (when IP sync is enabled) are all
unchanged, no modification tuple is produced (the loop appends to
`hosts_to_modify` exactly when a tuple is produced). -/
theorem C3_modification_emission (tag_matcher : Option TagMatcher)
    (label_pfx : Option String) (update_ips : Bool) (hosts_to_overtake : List String)
    (global_ident : String) (set_order : List String) (existing_host : CmkHost)
    (cmdb_host : Record) (hostname_field : String) (ctx : ModContext)
    (hctx : modification_context tag_matcher label_pfx hosts_to_overtake set_order
        existing_host cmdb_host hostname_field = some ctx) :
    (ctx.overtake = true →
      ∃ t, get_host_modification_tuple tag_matcher label_pfx update_ips
          hosts_to_overtake global_ident set_order existing_host cmdb_host
          hostname_field = some (some t))
    ∧ (ctx.overtake = false →
        needs_modification ctx.comparable_attributes
          (str_attrs ctx.future_attributes) = false →
        needs_modification (str_attrs ctx.api_label)
          (str_attrs ctx.future_label) = false →
        (∀ pair, ctx.tag_pair = some pair →
          needs_modification pair.1 (str_attrs pair.2) = false) →
        (update_ips = true →
          ip_needs_modification ctx.existing_ip ctx.future_ip = false) →
        get_host_modification_tuple tag_matcher label_pfx update_ips hosts_to_overtake
          global_ident set_order existing_host cmdb_host hostname_field =
          some none) := by
  constructor
  · intro hov
    have hu : update_needed update_ips ctx = true := by
      unfold update_needed
      rw [hov]
      simp
    refine ⟨build_modification label_pfx update_ips global_ident existing_host ctx, ?_⟩
    unfold get_host_modification_tuple
    rw [hctx]
    dsimp only
    rw [if_pos hu]
  · intro hov h1 h2 h3 h4
    have hu : update_needed update_ips ctx = false := by
      unfold update_needed
      rw [hov, h1, h2]
      have htag : (match ctx.tag_pair with
          | some pair => needs_modification pair.1 (str_attrs pair.2)
          | none => false) = false := by
        cases htp : ctx.tag_pair with
        | none => rfl
        | some pair => exact h3 pair htp
      rw [htag]
      cases hui : update_ips with
      | false => rfl
      | true => rw [h4 hui]; rfl
    unfold get_host_modification_tuple
    rw [hctx]
    dsimp only
    rw [if_neg (by rw [hu]; exact Bool.false_ne_true)]

theorem C1_witness :
    "srv" ∈ (partition_ownership "conn1" []
        [("srv", ⟨"/f", [("locked_by", .ident "other")]⟩)]).2.2
    ∧ (∀ t ∈ ([] : List CreateTuple), t.1 ≠ "srv")
    ∧ (∀ t ∈ ([] : List ModifyTuple), t.1 ≠ "srv")
    ∧ (∀ t ∈ ([] : List MoveTuple), t.1 ≠ "srv")
    ∧ (∀ n ∈ ([] : List String), n ≠ "srv") :=
  C1_unrelated_hosts_never_referenced "conn1" [] [] none "" "f" IP_ATTRIBUTES
    [[("host", "SRV")]] [("srv", ⟨"/f", [("locked_by", .ident "other")]⟩)] "host"
    none false [] [] [] [] (by decide) (by decide)
    ("srv", ⟨"/f", [("locked_by", .ident "other")]⟩) (by decide) (by decide) (by decide)

theorem C2_witness :
    (∀ n ∈ ["old"],
      ∃ p ∈ [("old", (⟨"/f", [("locked_by", .ident "conn1")]⟩ : CmkHost))],
        p.1 = n ∧ dict_get p.2.attributes "locked_by" = some (.ident "conn1"))
    ∧ (∀ host ∈ [[("host", "NEW")]], ∀ raw, dict_get host "host" = some raw →
        normalize_hostname raw ∉ ["old"]) :=
  C2_delete_only_managed_never_imported "conn1" [] [] none "" "f" IP_ATTRIBUTES
    [[("host", "NEW")]] [("old", ⟨"/f", [("locked_by", .ident "conn1")]⟩)] "host" none
    false [("new", "f", [("labels", .labelMap []), ("locked_by", .ident "conn1")])]
    [] ["old"] [] (by decide)

theorem C3_witness :
    ∃ t, get_host_modification_tuple none none false ["srv"] "conn1" IP_ATTRIBUTES
        (⟨"/f", [("labels", .labelMap [])]⟩ : CmkHost) [("host", "SRV")] "host" =
      some (some t) :=
  (C3_modification_emission none none false ["srv"] "conn1" IP_ATTRIBUTES
      ⟨"/f", [("labels", .labelMap [])]⟩ [("host", "SRV")] "host"
      ⟨"srv", [], [], [], [], [], none, none, none, true⟩ (by decide)).1 (by decide)

end FileConnector
